import Mathlib

/-!
Shallow embedding of `pyalgotrade/barfeed/dukascopyfeed.py` (Dukascopy tick
file feed): the tick decoder `Feed.loadTicksFromFile` and the bar aggregator
`Feed.addBarsFromFile`, together with theorems checking the specification's
claims against them.

Modelling conventions:
* A byte buffer is a `List Nat` of byte values (each `< 256` in real inputs).
* Python 2 semantics: `/` and `%` on ints are floor division and floor
  modulus, embedded as `Int.fdiv` / `Int.fmod`.
* Prices (`ask / 100000.0`, `bid / 100000.0`) are embedded in `ℚ`; the exact
  division is order- and equality-faithful to the scaled integer values.
* `datetime` arithmetic is exact: timestamps are `Int` milliseconds, with the
  base date (`strptime(date, '%Y.%m.%d')`) passed as an `Int` origin `base`,
  so `base + t` stands for `strptime(date) + timedelta(milliseconds=t)`.
* File I/O is an external collaborator: the decoder is modelled as a function
  of the fully-read byte buffer; the sequential `f.read(20)` loop becomes
  structural recursion taking 20 bytes at a time.
* Python's `struct.unpack_from('>iii', b)` succeeds iff `len(b) ≥ 12`
  (`calcsize('>iii') = 12`) and raises `struct.error` otherwise; failure is
  modelled as `Except.error`.
-/

namespace Dukascopy

/-- Big-endian signed 32-bit integer from four bytes, as read by a `'>i'`
field of `struct.unpack_from`. -/
def sint32be (b0 b1 b2 b3 : Nat) : Int :=
  let u : Nat := b0 * 16777216 + b1 * 65536 + b2 * 256 + b3
  if 2147483648 ≤ u then (u : Int) - 4294967296 else (u : Int)

/-- A decoded tick: `{'ask': ask / 100000.0, 'bid': bid / 100000.0,
'time': time_msec}` (dukascopyfeed.py line 99). -/
structure Tick where
  time : Int
  bid : ℚ
  ask : ℚ
deriving DecidableEq, Repr

/-- Decode one record from a chunk of at least 12 bytes:
`time_msec, ask, bid = struct.unpack_from('>iii', tick_bytes)` followed by
the scaling `ask / 100000.0`, `bid / 100000.0` (lines 97-99). -/
def mkTick (chunk : List Nat) : Tick :=
  { time := sint32be (chunk.getD 0 0) (chunk.getD 1 0) (chunk.getD 2 0) (chunk.getD 3 0)
    ask := (sint32be (chunk.getD 4 0) (chunk.getD 5 0) (chunk.getD 6 0) (chunk.getD 7 0) : ℚ)
      / 100000
    bid := (sint32be (chunk.getD 8 0) (chunk.getD 9 0) (chunk.getD 10 0) (chunk.getD 11 0) : ℚ)
      / 100000 }

/-- `Feed.loadTicksFromFile` (lines 90-101) over the file's byte buffer:
repeatedly read up to 20 bytes; stop on an empty read; unpack `'>iii'` from
the chunk, which raises `struct.error` when fewer than 12 bytes remain. -/
def loadTicksFromFile (buf : List Nat) : Except String (List Tick) :=
  if h : buf = [] then
    .ok []
  else
    let chunk := buf.take 20
    if chunk.length < 12 then
      .error "struct.error: unpack_from requires a buffer of at least 12 bytes"
    else
      match loadTicksFromFile (buf.drop 20) with
      | .error e => .error e
      | .ok ts => .ok (mkTick chunk :: ts)
termination_by buf.length
decreasing_by
  have hpos : 0 < buf.length := List.length_pos.mpr h
  simp only [List.length_drop]
  omega

/- The `bar.Frequency` enumeration lives in module `pyalgotrade.bar`, which is
not part of the sources; its values below are modelled from the spec. -/
namespace Frequency

/-- Modelled from the spec: the trade-tick marker of `bar.Frequency`, meaning
"no aggregation — one bar per tick"; a value distinct from every bucket
width. -/
def TRADE : Int := -1

/-- Modelled from the spec: bucket width in seconds. -/
def SECOND : Int := 1

/-- Modelled from the spec: bucket width in seconds. -/
def MINUTE : Int := 60

/-- Modelled from the spec: bucket width in seconds. -/
def FIVE_MINUTES : Int := 300

/-- Modelled from the spec: bucket width in seconds. -/
def FIFTEEN_MINUTES : Int := 900

/-- Modelled from the spec: bucket width in seconds. -/
def THIRTY_MINUTES : Int := 1800

/-- Modelled from the spec: bucket width in seconds. -/
def HOUR : Int := 3600

/-- Modelled from the spec: bucket width in seconds. -/
def FOUR_HOURS : Int := 14400

/-- Modelled from the spec: bucket width in seconds. -/
def DAY : Int := 86400

end Frequency

/-- The frequencies accepted by `Feed.__init__` (lines 64-72). -/
def validFrequencies : List Int :=
  [Frequency.TRADE, Frequency.SECOND, Frequency.MINUTE, Frequency.FIVE_MINUTES,
    Frequency.FIFTEEN_MINUTES, Frequency.THIRTY_MINUTES, Frequency.HOUR,
    Frequency.FOUR_HOURS, Frequency.DAY]

/-- Modelled from the spec: `bar.BasicBar` (module `pyalgotrade.bar`, not part
of the sources) — an immutable value holding exactly the constructor arguments
`(dateTime, open, high, low, close, volume, adjClose, frequency)` in that
order. `dateTime` is milliseconds relative to the epoch used for `base`. -/
structure BasicBar where
  dateTime : Int
  open_ : ℚ
  high : ℚ
  low : ℚ
  close : ℚ
  volume : Int
  adjClose : Option ℚ
  frequency : Int
deriving DecidableEq, Repr

/-- The fields of the `lastBar` dict, the loop-local accumulator of the
bucketed branch of `Feed.addBarsFromFile` (lines 136-167). -/
structure Acc where
  dateTime : Int
  open_ : ℚ
  high : ℚ
  low : ℚ
  curr : ℚ
  volume : Int
  adjClose : Option ℚ
deriving DecidableEq, Repr

/-- Lines 155-162: open a fresh bucket for tick `t` with opening price `o`
(`o` is `tick['bid']` for the first bucket, `lastBar['curr']` afterwards);
`w` is the bucket width in milliseconds (`frequency` after `*= 1000`). -/
def openAcc (base w : Int) (t : Tick) (o : ℚ) : Acc :=
  { dateTime := base + (t.time - Int.fmod t.time w)
    open_ := o
    high := o
    low := o
    curr := o
    volume := 10000
    adjClose := none }

/-- Lines 165-167: fold tick `t` into the open accumulator
(`curr = bid; low = min(low, curr); high = max(high, curr)`). -/
def updAcc (acc : Acc) (t : Tick) : Acc :=
  { acc with
    curr := t.bid
    low := min acc.low t.bid
    high := max acc.high t.bid }

/-- Lines 145-153: finalize the accumulator into a bar; note the `frequency`
argument passed is the millisecond value `w`. -/
def flushBar (w : Int) (acc : Acc) : BasicBar :=
  { dateTime := acc.dateTime
    open_ := acc.open_
    high := acc.high
    low := acc.low
    close := acc.curr
    volume := acc.volume
    adjClose := acc.adjClose
    frequency := w }

/-- One iteration of the tick loop (lines 142-167). The state is
`(lastBarNum, lastBar)` as an `Option` (`lastBarNum is None` means no bucket
open yet) together with the `bars` list built so far. Python 2 floor division
`tick['time'] / frequency` is `Int.fdiv`. -/
def processTick (base w : Int) (st : Option (Int × Acc)) (bars : List BasicBar)
    (t : Tick) : Option (Int × Acc) × List BasicBar :=
  let idx := Int.fdiv t.time w
  match st with
  | none => (some (idx, updAcc (openAcc base w t t.bid) t), bars)
  | some (n, acc) =>
    if idx = n then
      (some (n, updAcc acc t), bars)
    else
      (some (idx, updAcc (openAcc base w t acc.curr) t), bars ++ [flushBar w acc])

/-- The whole tick loop of the bucketed branch: after the last tick the
accumulator is dropped, only `bars` is returned (lines 142-167). -/
def runTicks (base w : Int) (st : Option (Int × Acc)) (bars : List BasicBar) :
    List Tick → List BasicBar
  | [] => bars
  | t :: ts =>
    let r := processTick base w st bars t
    runTicks base w r.1 r.2 ts

/-- A bar of the TRADE branch (lines 125-134): all four prices are the bid,
volume is 10000, `adjClose` is `None`, timestamp is base date plus
`tick['time']` milliseconds, and `frequency` is the unmodified argument. -/
def tradeBar (base : Int) (frequency : Int) (t : Tick) : BasicBar :=
  { dateTime := base + t.time
    open_ := t.bid
    high := t.bid
    low := t.bid
    close := t.bid
    volume := 10000
    adjClose := none
    frequency := frequency }

/-- `Feed.addBarsFromFile` (lines 103-169) after the ticks are loaded: the
bar-building part. `base` stands for `strptime(date, '%Y.%m.%d')` in
milliseconds. In the bucketed branch `frequency *= 1000` (line 140) before
any use, so the bucket width and every later use of `frequency` is in
milliseconds. -/
def addBarsFromTicks (base frequency : Int) (ticks : List Tick) : List BasicBar :=
  if frequency = Frequency.TRADE then
    ticks.map (tradeBar base frequency)
  else
    runTicks base (frequency * 1000) none [] ticks

/-- `Feed.barsHaveAdjClose` (lines 87-88). -/
def barsHaveAdjClose : Bool := true

/-- Well-formedness of the accumulator's running prices: open and the running
close (`curr`) both lie between low and high. -/
def accOK (a : Acc) : Prop :=
  a.low ≤ a.open_ ∧ a.open_ ≤ a.high ∧ a.low ≤ a.curr ∧ a.curr ≤ a.high

/-- Well-formedness of a bar's prices: open and close lie between low and
high. -/
def barOK (b : BasicBar) : Prop :=
  b.low ≤ b.open_ ∧ b.open_ ≤ b.high ∧ b.low ≤ b.close ∧ b.close ≤ b.high

/-! ### Helper lemmas about the tick loop -/

lemma runTicks_nil (base w : Int) (st : Option (Int × Acc)) (bars : List BasicBar) :
    runTicks base w st bars [] = bars := rfl

lemma runTicks_cons (base w : Int) (st : Option (Int × Acc)) (bars : List BasicBar)
    (t : Tick) (ts : List Tick) :
    runTicks base w st bars (t :: ts) =
      runTicks base w (processTick base w st bars t).1 (processTick base w st bars t).2 ts := rfl

lemma updAcc_open (acc : Acc) (t : Tick) : (updAcc acc t).open_ = acc.open_ := rfl

lemma updAcc_adjClose (acc : Acc) (t : Tick) : (updAcc acc t).adjClose = acc.adjClose := rfl

lemma updAcc_dateTime (acc : Acc) (t : Tick) : (updAcc acc t).dateTime = acc.dateTime := rfl

/-- If every remaining tick still falls in the currently open bucket, the loop
never flushes: the output list is unchanged. -/
lemma runTicks_same_bucket (base w : Int) :
    ∀ (ts : List Tick) (n : Int) (acc : Acc) (bars : List BasicBar),
      (∀ t ∈ ts, Int.fdiv t.time w = n) →
      runTicks base w (some (n, acc)) bars ts = bars
  | [], _, _, _, _ => rfl
  | t :: ts, n, acc, bars, h => by
    have ht : Int.fdiv t.time w = n := h t (List.mem_cons_self t ts)
    rw [runTicks_cons]
    simp only [processTick, ht, if_pos rfl]
    exact runTicks_same_bucket base w ts n (updAcc acc t) bars
      (fun t' ht' => h t' (List.mem_cons_of_mem t ht'))

/-- Every bar in the loop's output either was already in `bars` or carries
`adjClose = none`, provided the open accumulator does. -/
lemma runTicks_adjClose (base w : Int) :
    ∀ (ts : List Tick) (st : Option (Int × Acc)) (bars : List BasicBar),
      (∀ n acc, st = some (n, acc) → acc.adjClose = none) →
      (∀ b ∈ bars, b.adjClose = none) →
      ∀ b ∈ runTicks base w st bars ts, b.adjClose = none
  | [], _, _, _, hbars => hbars
  | t :: ts, none, bars, _, hbars => by
    rw [runTicks_cons]
    exact runTicks_adjClose base w ts _ _ (by rintro n acc h; cases h; rfl) hbars
  | t :: ts, some (n, acc), bars, hst, hbars => by
    have hacc : acc.adjClose = none := hst n acc rfl
    rw [runTicks_cons]
    by_cases hidx : Int.fdiv t.time w = n
    · simp only [processTick, hidx, if_pos rfl]
      exact runTicks_adjClose base w ts _ _
        (by rintro n' acc' h; cases h; simpa [updAcc] using hacc) hbars
    · simp only [processTick, if_neg hidx]
      refine runTicks_adjClose base w ts _ _ (by rintro n' acc' h; cases h; rfl) ?_
      intro b hb
      rcases List.mem_append.mp hb with hb | hb
      · exact hbars b hb
      · rcases List.mem_singleton.mp hb with rfl
        simpa [flushBar] using hacc

/-- Every bar in the loop's output either was already in `bars` or carries
the loop's `frequency` value `w` (the millisecond width). -/
lemma runTicks_frequency (base w : Int) :
    ∀ (ts : List Tick) (st : Option (Int × Acc)) (bars : List BasicBar),
      (∀ b ∈ bars, b.frequency = w) →
      ∀ b ∈ runTicks base w st bars ts, b.frequency = w
  | [], _, _, hbars => hbars
  | t :: ts, none, bars, hbars => by
    rw [runTicks_cons]
    exact runTicks_frequency base w ts _ _ hbars
  | t :: ts, some (n, acc), bars, hbars => by
    rw [runTicks_cons]
    by_cases hidx : Int.fdiv t.time w = n
    · simp only [processTick, hidx, if_pos rfl]
      exact runTicks_frequency base w ts _ _ hbars
    · simp only [processTick, if_neg hidx]
      refine runTicks_frequency base w ts _ _ ?_
      intro b hb
      rcases List.mem_append.mp hb with hb | hb
      · exact hbars b hb
      · rcases List.mem_singleton.mp hb with rfl
        rfl

/-- `processTick` reads only the `time` and `bid` fields of the tick. -/
lemma processTick_congr (base w : Int) (st : Option (Int × Acc)) (bars : List BasicBar)
    (t t' : Tick) (htime : t.time = t'.time) (hbid : t.bid = t'.bid) :
    processTick base w st bars t = processTick base w st bars t' := by
  cases st with
  | none => simp only [processTick, updAcc, openAcc, htime, hbid]
  | some p => rcases p with ⟨n, acc⟩; simp only [processTick, updAcc, openAcc, htime, hbid]

/-- The tick loop is insensitive to the ask prices of its input. -/
lemma runTicks_congr (base w : Int) :
    ∀ (ts ts' : List Tick) (st : Option (Int × Acc)) (bars : List BasicBar),
      ts.map (fun t => (t.time, t.bid)) = ts'.map (fun t => (t.time, t.bid)) →
      runTicks base w st bars ts = runTicks base w st bars ts'
  | [], [], _, _, _ => rfl
  | [], _ :: _, _, _, h => by simp at h
  | _ :: _, [], _, _, h => by simp at h
  | t :: ts, t' :: ts', st, bars, h => by
    simp only [List.map_cons, List.cons.injEq, Prod.mk.injEq] at h
    obtain ⟨⟨h1, h2⟩, h3⟩ := h
    rw [runTicks_cons, runTicks_cons, processTick_congr base w st bars t t' h1 h2]
    exact runTicks_congr base w ts ts' _ _ h3

/-- The TRADE branch is insensitive to the ask prices of its input. -/
lemma tradeBars_congr (base f : Int) :
    ∀ (ts ts' : List Tick),
      ts.map (fun t => (t.time, t.bid)) = ts'.map (fun t => (t.time, t.bid)) →
      ts.map (tradeBar base f) = ts'.map (tradeBar base f)
  | [], [], _ => rfl
  | [], _ :: _, h => by simp at h
  | _ :: _, [], h => by simp at h
  | t :: ts, t' :: ts', h => by
    simp only [List.map_cons, List.cons.injEq, Prod.mk.injEq] at h
    obtain ⟨⟨h1, h2⟩, h3⟩ := h
    simp only [List.map_cons, List.cons.injEq]
    exact ⟨by simp [tradeBar, h1, h2], tradeBars_congr base f ts ts' h3⟩

/-- Unfolding lemma: decoding the empty buffer yields no ticks. -/
lemma loadTicksFromFile_nil : loadTicksFromFile [] = .ok [] := by
  rw [loadTicksFromFile.eq_def]
  simp

/-- Unfolding lemma: a non-empty trailing chunk of fewer than 12 bytes makes
`struct.unpack_from` fail. -/
lemma loadTicksFromFile_short (buf : List Nat) (h : buf ≠ [])
    (hlt : (buf.take 20).length < 12) :
    loadTicksFromFile buf =
      .error "struct.error: unpack_from requires a buffer of at least 12 bytes" := by
  rw [loadTicksFromFile.eq_def, dif_neg h]
  exact if_pos hlt

/-- Unfolding lemma: a chunk of at least 12 bytes decodes one tick and the
loop continues on the remainder of the buffer. -/
lemma loadTicksFromFile_step (buf : List Nat) (h : buf ≠ [])
    (hge : ¬ (buf.take 20).length < 12) :
    loadTicksFromFile buf =
      match loadTicksFromFile (buf.drop 20) with
      | .error e => .error e
      | .ok ts => .ok (mkTick (buf.take 20) :: ts) := by
  rw [loadTicksFromFile.eq_def, dif_neg h]
  exact if_neg hge

/-- Decoding succeeds exactly when the buffer length leaves remainder 0 or at
least 12 modulo the 20-byte record size. -/
lemma loadTicks_ok_iff (buf : List Nat) :
    (∃ ts, loadTicksFromFile buf = .ok ts) ↔
      (buf.length % 20 = 0 ∨ 12 ≤ buf.length % 20) := by
  by_cases hnil : buf = []
  · subst hnil
    simp [loadTicksFromFile_nil]
  · have hpos : 0 < buf.length := List.length_pos.mpr hnil
    by_cases hlt : (buf.take 20).length < 12
    · rw [loadTicksFromFile_short buf hnil hlt]
      simp only [List.length_take] at hlt
      constructor
      · rintro ⟨ts, hts⟩
        exact absurd hts (by simp)
      · intro hc
        omega
    · rw [loadTicksFromFile_step buf hnil hlt]
      have ih := loadTicks_ok_iff (buf.drop 20)
      simp only [List.length_take] at hlt
      simp only [List.length_drop] at ih
      cases hload : loadTicksFromFile (buf.drop 20) with
      | error e =>
        rw [hload] at ih
        have hnd : ¬ ((buf.length - 20) % 20 = 0 ∨ 12 ≤ (buf.length - 20) % 20) := by
          rw [← ih]
          rintro ⟨ts, hts⟩
          exact absurd hts (by simp)
        constructor
        · rintro ⟨ts, hts⟩
          exact absurd hts (by simp)
        · intro hc
          omega
      | ok ts =>
        rw [hload] at ih
        have hd : (buf.length - 20) % 20 = 0 ∨ 12 ≤ (buf.length - 20) % 20 :=
          ih.mp ⟨ts, rfl⟩
        constructor
        · intro _
          omega
        · intro _
          exact ⟨mkTick (buf.take 20) :: ts, rfl⟩
termination_by buf.length
decreasing_by
  have hpos : 0 < buf.length := List.length_pos.mpr hnil
  simp only [List.length_drop]
  omega

/-- Reading byte `k < 20` of the 20-byte chunk starting at offset `j` reads
byte `j + k` of the buffer. -/
lemma chunk_getD (buf : List Nat) (j k : Nat) (hk : k < 20) :
    ((buf.drop j).take 20).getD k 0 = buf.getD (j + k) 0 := by
  rw [List.getD_eq_getElem?_getD, List.getD_eq_getElem?_getD,
    List.getElem?_take_of_lt hk, List.getElem?_drop]

/-- The tick decoded from the chunk at offset `j` is given by the flat
byte-indexing formula: `time` from bytes `j..j+3`, `ask` from `j+4..j+7`,
`bid` from `j+8..j+11`, all big-endian signed 32-bit, prices divided by the
scale factor 100000; bytes `j+12..j+19` are never read. -/
lemma mkTick_drop_take (buf : List Nat) (j : Nat) :
    mkTick ((buf.drop j).take 20) =
      { time := sint32be (buf.getD (j + 0) 0) (buf.getD (j + 1) 0)
          (buf.getD (j + 2) 0) (buf.getD (j + 3) 0)
        ask := ((sint32be (buf.getD (j + 4) 0) (buf.getD (j + 5) 0)
          (buf.getD (j + 6) 0) (buf.getD (j + 7) 0) : Int) : ℚ) / 100000
        bid := ((sint32be (buf.getD (j + 8) 0) (buf.getD (j + 9) 0)
          (buf.getD (j + 10) 0) (buf.getD (j + 11) 0) : Int) : ℚ) / 100000 } := by
  unfold mkTick
  rw [chunk_getD buf j 0 (by omega), chunk_getD buf j 1 (by omega),
    chunk_getD buf j 2 (by omega), chunk_getD buf j 3 (by omega),
    chunk_getD buf j 4 (by omega), chunk_getD buf j 5 (by omega),
    chunk_getD buf j 6 (by omega), chunk_getD buf j 7 (by omega),
    chunk_getD buf j 8 (by omega), chunk_getD buf j 9 (by omega),
    chunk_getD buf j 10 (by omega), chunk_getD buf j 11 (by omega)]

/-- Structure of a successful decode of a buffer whose length is a multiple
of 20: one tick per 20-byte chunk, in file order. -/
lemma loadTicks_get (buf : List Nat) (hlen : buf.length % 20 = 0) :
    ∃ ts, loadTicksFromFile buf = .ok ts ∧ ts.length = buf.length / 20 ∧
      ∀ i : Nat, ts[i]? = if i < buf.length / 20 then
        some (mkTick ((buf.drop (20 * i)).take 20)) else none := by
  by_cases hnil : buf = []
  · subst hnil
    exact ⟨[], loadTicksFromFile_nil, by simp, fun i => by simp⟩
  · have hpos : 0 < buf.length := List.length_pos.mpr hnil
    have h20 : 20 ≤ buf.length := by omega
    have hge : ¬ (buf.take 20).length < 12 := by
      simp only [List.length_take]
      omega
    have hlen' : (buf.drop 20).length % 20 = 0 := by
      simp only [List.length_drop]
      omega
    obtain ⟨ts', hload', hlen'', hget'⟩ := loadTicks_get (buf.drop 20) hlen'
    refine ⟨mkTick (buf.take 20) :: ts', ?_, ?_, ?_⟩
    · rw [loadTicksFromFile_step buf hnil hge, hload']
    · simp only [List.length_cons, hlen'', List.length_drop]
      omega
    · intro i
      cases i with
      | zero =>
        have : 0 < buf.length / 20 := by omega
        simp [this]
      | succ i =>
        rw [List.getElem?_cons_succ, hget' i]
        have hdl : (List.drop 20 buf).length = buf.length - 20 := by
          simp [List.length_drop]
        rw [hdl]
        by_cases hi : i < (buf.length - 20) / 20
        · have hi' : i + 1 < buf.length / 20 := by omega
          rw [if_pos hi, if_pos hi', List.drop_drop]
          have harith : 20 + 20 * i = 20 * (i + 1) := by ring
          rw [harith]
        · have hi' : ¬ (i + 1 < buf.length / 20) := by omega
          rw [if_neg hi, if_neg hi']
termination_by buf.length
decreasing_by
  have hpos : 0 < buf.length := List.length_pos.mpr hnil
  simp only [List.length_drop]
  omega

/-- Floor division by a positive width is monotone. -/
lemma fdiv_le_fdiv {w : Int} (hw : 0 < w) {a b : Int} (hab : a ≤ b) :
    Int.fdiv a w ≤ Int.fdiv b w := by
  rw [Int.fdiv_eq_ediv _ (le_of_lt hw), Int.fdiv_eq_ediv _ (le_of_lt hw)]
  exact Int.ediv_le_ediv hw hab

lemma accOK_updAcc {a : Acc} (t : Tick) (h : accOK a) : accOK (updAcc a t) := by
  obtain ⟨h1, h2, _, _⟩ := h
  exact ⟨le_trans (min_le_left _ _) h1, le_trans h2 (le_max_left _ _),
    min_le_right _ _, le_max_right _ _⟩

lemma accOK_openAcc (base w : Int) (t : Tick) (o : ℚ) : accOK (openAcc base w t o) :=
  ⟨le_refl o, le_refl o, le_refl o, le_refl o⟩

lemma barOK_flushBar {a : Acc} (w : Int) (h : accOK a) : barOK (flushBar w a) := h

/-- A bucket opened for tick `t` starts at the bucket-aligned timestamp
`base + w * (t.time fdiv w)`. -/
lemma openAcc_dateTime (base w : Int) (t : Tick) (o : ℚ) :
    (openAcc base w t o).dateTime = base + w * Int.fdiv t.time w := by
  show base + (t.time - Int.fmod t.time w) = base + w * Int.fdiv t.time w
  rw [Int.fmod_def]
  ring

/-- Invariant run for price well-formedness and strictly increasing
timestamps: with a positive width, monotone remaining ticks all at or past
the open bucket, a well-formed accumulator sitting at the bucket-aligned
timestamp, and well-formed, strictly increasing emitted bars all strictly
before the open bucket, the final output is well-formed with strictly
increasing timestamps. -/
lemma runTicks_ordered (base w : Int) (hw : 0 < w) :
    ∀ (ts : List Tick) (n : Int) (acc : Acc) (bars : List BasicBar),
      (∀ t ∈ ts, n ≤ Int.fdiv t.time w) →
      List.Pairwise (fun a b : Tick => a.time ≤ b.time) ts →
      accOK acc →
      acc.dateTime = base + w * n →
      (∀ b ∈ bars, barOK b) →
      (∀ b ∈ bars, b.dateTime < base + w * n) →
      List.Pairwise (fun b b' : BasicBar => b.dateTime < b'.dateTime) bars →
      (∀ b ∈ runTicks base w (some (n, acc)) bars ts, barOK b) ∧
      List.Pairwise (fun b b' : BasicBar => b.dateTime < b'.dateTime)
        (runTicks base w (some (n, acc)) bars ts)
  | [], _, _, _, _, _, _, _, hbars, _, hpair => ⟨hbars, hpair⟩
  | t :: ts, n, acc, bars, hle, hsorted, hacc, hdt, hbars, hlt, hpair => by
    obtain ⟨hhead, htail⟩ := List.pairwise_cons.mp hsorted
    rw [runTicks_cons]
    by_cases hidx : Int.fdiv t.time w = n
    · simp only [processTick, hidx, if_pos rfl]
      exact runTicks_ordered base w hw ts n (updAcc acc t) bars
        (fun t' ht' => hle t' (List.mem_cons_of_mem t ht')) htail
        (accOK_updAcc t hacc) (by rw [updAcc_dateTime]; exact hdt)
        hbars hlt hpair
    · simp only [processTick, if_neg hidx]
      have hn : n < Int.fdiv t.time w :=
        lt_of_le_of_ne (hle t (List.mem_cons_self t ts)) (Ne.symm hidx)
      have hwn : base + w * n < base + w * Int.fdiv t.time w := by
        have := mul_lt_mul_of_pos_left hn hw
        omega
      apply runTicks_ordered base w hw ts (Int.fdiv t.time w)
        (updAcc (openAcc base w t acc.curr) t) (bars ++ [flushBar w acc])
      · intro t' ht'
        exact fdiv_le_fdiv hw (hhead t' ht')
      · exact htail
      · exact accOK_updAcc t (accOK_openAcc base w t acc.curr)
      · rw [updAcc_dateTime, openAcc_dateTime]
      · intro b hb
        rcases List.mem_append.mp hb with hb | hb
        · exact hbars b hb
        · rcases List.mem_singleton.mp hb with rfl
          exact barOK_flushBar w hacc
      · intro b hb
        rcases List.mem_append.mp hb with hb | hb
        · exact lt_trans (hlt b hb) hwn
        · rcases List.mem_singleton.mp hb with rfl
          show acc.dateTime < _
          rw [hdt]
          exact hwn
      · rw [List.pairwise_append]
        refine ⟨hpair, List.pairwise_singleton _ _, ?_⟩
        intro a ha b hb
        rcases List.mem_singleton.mp hb with rfl
        show a.dateTime < acc.dateTime
        rw [hdt]
        exact hlt a ha

/-- Invariant run for the open-price chain: if the emitted bars so far are
chained (each open equals the previous close), the first emitted bar opens at
`o0`, and the open accumulator's open price is `o0` when nothing has been
emitted and the last emitted close otherwise, then the same holds of the
final output. -/
lemma runTicks_chain_inv (base w : Int) (o0 : ℚ) :
    ∀ (ts : List Tick) (n : Int) (acc : Acc) (bars : List BasicBar),
      List.Chain' (fun b b' => b'.open_ = b.close) bars →
      (∀ b0, bars.head? = some b0 → b0.open_ = o0) →
      (bars = [] → acc.open_ = o0) →
      (∀ bl, bars.getLast? = some bl → acc.open_ = bl.close) →
      List.Chain' (fun b b' => b'.open_ = b.close)
        (runTicks base w (some (n, acc)) bars ts) ∧
      (∀ b0, (runTicks base w (some (n, acc)) bars ts).head? = some b0 →
        b0.open_ = o0)
  | [], _, _, _, hchain, hhead, _, _ => ⟨hchain, hhead⟩
  | t :: ts, n, acc, bars, hchain, hhead, hnil, hlast => by
    rw [runTicks_cons]
    by_cases hidx : Int.fdiv t.time w = n
    · simp only [processTick, hidx, if_pos rfl]
      exact runTicks_chain_inv base w o0 ts n (updAcc acc t) bars hchain hhead
        (fun h => by rw [updAcc_open]; exact hnil h)
        (fun bl h => by rw [updAcc_open]; exact hlast bl h)
    · simp only [processTick, if_neg hidx]
      apply runTicks_chain_inv base w o0 ts
      · rw [List.chain'_append]
        refine ⟨hchain, List.chain'_singleton _, ?_⟩
        intro x hx y hy
        have hy' : flushBar w acc = y := by simpa using hy
        subst hy'
        show (flushBar w acc).open_ = x.close
        exact hlast x (by simpa using hx)
      · intro b0 hb0
        cases bars with
        | nil =>
          have hb : flushBar w acc = b0 := by simpa using hb0
          rw [← hb]
          exact hnil rfl
        | cons b bs =>
          have hb : b = b0 := by simpa using hb0
          rw [← hb]
          exact hhead b rfl
      · intro habs
        exact absurd habs (by simp)
      · intro bl hbl
        have hbl' : bl = flushBar w acc := by
          rw [List.getLast?_concat] at hbl
          exact (Option.some.injEq _ _ ▸ hbl).symm
        subst hbl'
        rfl

/-! ### Claim theorems -/

/-- C4: for every bucketed frequency, the loop assigns each tick the bucket
index `time_offset_ms` floor-divided by the bucket width in milliseconds; a
tick opens a new bucket exactly when no accumulator is open or its bucket
index differs from the accumulator's (flushing the old bucket in the latter
case), and an opened bucket's timestamp is the base date plus
`time − time mod width` milliseconds, which is `width × bucket index`. -/
theorem bucketAssignment (base f : Int) (hf : f ∈ validFrequencies)
    (hnt : f ≠ Frequency.TRADE) :
    (∀ (st : Option (Int × Acc)) (bars : List BasicBar) (t : Tick),
      ∃ acc', (processTick base (f * 1000) st bars t).1 =
        some (Int.fdiv t.time (f * 1000), acc')) ∧
    (∀ (bars : List BasicBar) (t : Tick) (n : Int) (acc : Acc),
      Int.fdiv t.time (f * 1000) = n →
      processTick base (f * 1000) (some (n, acc)) bars t =
        (some (n, updAcc acc t), bars)) ∧
    (∀ (bars : List BasicBar) (t : Tick),
      processTick base (f * 1000) none bars t =
        (some (Int.fdiv t.time (f * 1000),
          updAcc (openAcc base (f * 1000) t t.bid) t), bars)) ∧
    (∀ (bars : List BasicBar) (t : Tick) (n : Int) (acc : Acc),
      Int.fdiv t.time (f * 1000) ≠ n →
      processTick base (f * 1000) (some (n, acc)) bars t =
        (some (Int.fdiv t.time (f * 1000),
          updAcc (openAcc base (f * 1000) t acc.curr) t),
          bars ++ [flushBar (f * 1000) acc])) ∧
    (∀ (t : Tick) (o : ℚ),
      (openAcc base (f * 1000) t o).dateTime =
        base + (t.time - Int.fmod t.time (f * 1000)) ∧
      t.time - Int.fmod t.time (f * 1000) =
        (f * 1000) * Int.fdiv t.time (f * 1000)) := by
  refine ⟨?_, ?_, ?_, ?_, ?_⟩
  · intro st bars t
    cases st with
    | none => exact ⟨_, rfl⟩
    | some p =>
      rcases p with ⟨n, acc⟩
      by_cases hidx : Int.fdiv t.time (f * 1000) = n
      · rw [← hidx]
        exact ⟨updAcc acc t, by simp [processTick, hidx]⟩
      · exact ⟨updAcc (openAcc base (f * 1000) t acc.curr) t, by simp [processTick, hidx]⟩
  · intro bars t n acc hidx
    simp [processTick, hidx]
  · intro bars t
    rfl
  · intro bars t n acc hidx
    simp [processTick, hidx]
  · intro t o
    refine ⟨rfl, ?_⟩
    rw [Int.fmod_def]
    ring

/-- Witness for C4: at SECOND frequency, a tick at 2500 ms opens bucket 2
with bucket-start timestamp 2000 ms. -/
theorem bucketAssignment_witness :
    Frequency.SECOND ∈ validFrequencies ∧ Frequency.SECOND ≠ Frequency.TRADE ∧
    processTick 0 (Frequency.SECOND * 1000) none [] ⟨2500, 7, 9⟩ =
      (some (Int.fdiv 2500 (Frequency.SECOND * 1000),
        updAcc (openAcc 0 (Frequency.SECOND * 1000) ⟨2500, 7, 9⟩ 7) ⟨2500, 7, 9⟩), []) :=
  ⟨by decide, by decide,
    (bucketAssignment 0 Frequency.SECOND (by decide) (by decide)).2.2.1 [] ⟨2500, 7, 9⟩⟩

/-- C2: at a bucketed (non-TRADE) frequency, once the tick loop has consumed
every tick the open accumulator is dropped, never appended (`runTicks` on `[]`
returns `bars` unchanged); consequently a non-empty tick sequence confined to
a single bucket aggregates to the empty bar sequence. -/
theorem lastOpenBucketDropped (base f : Int) (hf : f ∈ validFrequencies)
    (hnt : f ≠ Frequency.TRADE) (t0 : Tick) (ticks : List Tick)
    (hhead : ticks.head? = some t0)
    (hone : ∀ t ∈ ticks, Int.fdiv t.time (f * 1000) = Int.fdiv t0.time (f * 1000)) :
    (∀ (st : Option (Int × Acc)) (bars : List BasicBar),
        runTicks base (f * 1000) st bars [] = bars) ∧
    addBarsFromTicks base f ticks = [] := by
  refine ⟨fun _ _ => rfl, ?_⟩
  cases ticks with
  | nil => simp at hhead
  | cons t ts =>
    have ht0 : t = t0 := by simpa using hhead
    subst ht0
    simp only [addBarsFromTicks, if_neg hnt]
    rw [runTicks_cons]
    simp only [processTick]
    exact runTicks_same_bucket base (f * 1000) ts _ _ _
      (fun t' ht' => hone t' (List.mem_cons_of_mem t ht'))

/-- C1 counterexample: a 12-byte buffer — length not a multiple of 20 —
decodes successfully to one tick instead of failing: `unpack_from` only
needs the first 12 bytes of the trailing partial record. -/
theorem decodeAcceptsPartialRecord :
    (List.replicate 12 (0 : Nat)).length % 20 ≠ 0 ∧
    loadTicksFromFile (List.replicate 12 (0 : Nat)) =
      .ok [{ time := 0, bid := 0, ask := 0 }] := by
  refine ⟨by decide, ?_⟩
  rw [loadTicksFromFile_step (List.replicate 12 0) (by decide) (by decide)]
  have hdrop : (List.replicate 12 (0 : Nat)).drop 20 = [] := by decide
  rw [hdrop, loadTicksFromFile_nil]
  show Except.ok [mkTick ((List.replicate 12 (0 : Nat)).take 20)] = _
  have : mkTick ((List.replicate 12 (0 : Nat)).take 20) = { time := 0, bid := 0, ask := 0 } := by
    simp [mkTick, sint32be]
  rw [this]

/-- C1 amended: the decode of a byte buffer fails — with the record-format
error of `struct.unpack_from`, returning no partial tick sequence — exactly
when the buffer length modulo 20 lies in 1..11; it succeeds whenever the
length is a multiple of 20 (with no other validation) and also when the
trailing partial record has 12 to 19 bytes. -/
theorem decodeFailureCondition (buf : List Nat) :
    ((∃ ts, loadTicksFromFile buf = .ok ts) ↔
      (buf.length % 20 = 0 ∨ 12 ≤ buf.length % 20)) ∧
    ((∃ e, loadTicksFromFile buf = .error e) ↔
      (0 < buf.length % 20 ∧ buf.length % 20 < 12)) := by
  have hok := loadTicks_ok_iff buf
  refine ⟨hok, ?_⟩
  cases hload : loadTicksFromFile buf with
  | error e =>
    rw [hload] at hok
    have : ¬ (buf.length % 20 = 0 ∨ 12 ≤ buf.length % 20) := by
      rw [← hok]
      rintro ⟨ts, hts⟩
      exact absurd hts (by simp)
    constructor
    · intro _
      omega
    · intro _
      exact ⟨e, rfl⟩
  | ok ts =>
    rw [hload] at hok
    have : buf.length % 20 = 0 ∨ 12 ≤ buf.length % 20 := hok.mp ⟨ts, rfl⟩
    constructor
    · rintro ⟨e, he⟩
      exact absurd he (by simp)
    · intro hc
      omega

/-- C6: a buffer whose length is a multiple of 20 decodes to exactly
`length / 20` ticks in file order; record `i` yields `time_offset_ms` from
bytes `20i..20i+3` (big-endian signed 32-bit), `ask` from bytes
`20i+4..20i+7` and `bid` from bytes `20i+8..20i+11`, each divided by the
scale factor 100000, and bytes `20i+12..20i+19` are discarded (the result
does not reference them). -/
theorem decodeRecordLayout (buf : List Nat) (hlen : buf.length % 20 = 0) :
    ∃ ts, loadTicksFromFile buf = .ok ts ∧ ts.length = buf.length / 20 ∧
      ∀ i : Nat, i < buf.length / 20 →
        ts[i]? = some
          { time := sint32be (buf.getD (20 * i + 0) 0) (buf.getD (20 * i + 1) 0)
              (buf.getD (20 * i + 2) 0) (buf.getD (20 * i + 3) 0)
            ask := ((sint32be (buf.getD (20 * i + 4) 0) (buf.getD (20 * i + 5) 0)
              (buf.getD (20 * i + 6) 0) (buf.getD (20 * i + 7) 0) : Int) : ℚ) / 100000
            bid := ((sint32be (buf.getD (20 * i + 8) 0) (buf.getD (20 * i + 9) 0)
              (buf.getD (20 * i + 10) 0) (buf.getD (20 * i + 11) 0) : Int) : ℚ) / 100000 } := by
  obtain ⟨ts, h1, h2, h3⟩ := loadTicks_get buf hlen
  refine ⟨ts, h1, h2, fun i hi => ?_⟩
  rw [h3 i, if_pos hi, mkTick_drop_take]

/-- Witness for C6: a concrete 20-byte record with time 1000 ms, ask 1 and
bid 1/2, followed by 8 junk bytes, decodes to exactly that tick. -/
theorem decodeRecordLayout_witness :
    ([0, 0, 3, 232, 0, 1, 134, 160, 0, 0, 195, 80, 9, 9, 9, 9, 9, 9, 9, 9] :
      List Nat).length % 20 = 0 ∧
    (∃ ts, loadTicksFromFile
        [0, 0, 3, 232, 0, 1, 134, 160, 0, 0, 195, 80, 9, 9, 9, 9, 9, 9, 9, 9] = .ok ts ∧
      ts.length = ([0, 0, 3, 232, 0, 1, 134, 160, 0, 0, 195, 80, 9, 9, 9, 9, 9, 9, 9, 9] :
        List Nat).length / 20 ∧
      ∀ i : Nat, i < ([0, 0, 3, 232, 0, 1, 134, 160, 0, 0, 195, 80, 9, 9, 9, 9, 9, 9, 9, 9] :
          List Nat).length / 20 →
        ts[i]? = some
          { time := sint32be ((
              [0, 0, 3, 232, 0, 1, 134, 160, 0, 0, 195, 80, 9, 9, 9, 9, 9, 9, 9, 9] :
              List Nat).getD (20 * i + 0) 0) (([0, 0, 3, 232, 0, 1, 134, 160, 0, 0, 195,
              80, 9, 9, 9, 9, 9, 9, 9, 9] : List Nat).getD (20 * i + 1) 0)
              (([0, 0, 3, 232, 0, 1, 134, 160, 0, 0, 195, 80, 9, 9, 9, 9, 9, 9, 9, 9] :
              List Nat).getD (20 * i + 2) 0) (([0, 0, 3, 232, 0, 1, 134, 160, 0, 0, 195,
              80, 9, 9, 9, 9, 9, 9, 9, 9] : List Nat).getD (20 * i + 3) 0)
            ask := ((sint32be (([0, 0, 3, 232, 0, 1, 134, 160, 0, 0, 195, 80, 9, 9, 9, 9,
              9, 9, 9, 9] : List Nat).getD (20 * i + 4) 0) (([0, 0, 3, 232, 0, 1, 134,
              160, 0, 0, 195, 80, 9, 9, 9, 9, 9, 9, 9, 9] : List Nat).getD (20 * i + 5) 0)
              (([0, 0, 3, 232, 0, 1, 134, 160, 0, 0, 195, 80, 9, 9, 9, 9, 9, 9, 9, 9] :
              List Nat).getD (20 * i + 6) 0) (([0, 0, 3, 232, 0, 1, 134, 160, 0, 0, 195,
              80, 9, 9, 9, 9, 9, 9, 9, 9] : List Nat).getD (20 * i + 7) 0) : Int) : ℚ)
              / 100000
            bid := ((sint32be (([0, 0, 3, 232, 0, 1, 134, 160, 0, 0, 195, 80, 9, 9, 9, 9,
              9, 9, 9, 9] : List Nat).getD (20 * i + 8) 0) (([0, 0, 3, 232, 0, 1, 134,
              160, 0, 0, 195, 80, 9, 9, 9, 9, 9, 9, 9, 9] : List Nat).getD (20 * i + 9) 0)
              (([0, 0, 3, 232, 0, 1, 134, 160, 0, 0, 195, 80, 9, 9, 9, 9, 9, 9, 9, 9] :
              List Nat).getD (20 * i + 10) 0) (([0, 0, 3, 232, 0, 1, 134, 160, 0, 0, 195,
              80, 9, 9, 9, 9, 9, 9, 9, 9] : List Nat).getD (20 * i + 11) 0) : Int) : ℚ)
              / 100000 }) :=
  ⟨by decide, decodeRecordLayout
    [0, 0, 3, 232, 0, 1, 134, 160, 0, 0, 195, 80, 9, 9, 9, 9, 9, 9, 9, 9] (by decide)⟩

/-- Witness for C2: two ticks 500 ms apart lie in the same one-second bucket
and SECOND-frequency aggregation of them yields no bars at all. -/
theorem lastOpenBucketDropped_witness :
    Frequency.SECOND ∈ validFrequencies ∧ Frequency.SECOND ≠ Frequency.TRADE ∧
    ([⟨0, 2, 3⟩, ⟨500, 4, 5⟩] : List Tick).head? = some ⟨0, 2, 3⟩ ∧
    (∀ t ∈ ([⟨0, 2, 3⟩, ⟨500, 4, 5⟩] : List Tick),
      Int.fdiv t.time (Frequency.SECOND * 1000) =
        Int.fdiv (Tick.mk 0 2 3).time (Frequency.SECOND * 1000)) ∧
    addBarsFromTicks 0 Frequency.SECOND [⟨0, 2, 3⟩, ⟨500, 4, 5⟩] = [] :=
  ⟨by decide, by decide, by decide, by decide,
    (lastOpenBucketDropped 0 Frequency.SECOND (by decide) (by decide) ⟨0, 2, 3⟩
      [⟨0, 2, 3⟩, ⟨500, 4, 5⟩] (by decide) (by decide)).2⟩

/-- C3 counterexample: at SECOND frequency (bucket size 1 second) the emitted
bar's frequency field is 1000 — the bucket size in milliseconds — not the
bucket size in seconds. -/
theorem barFrequencyIsMilliseconds :
    (addBarsFromTicks 0 Frequency.SECOND [⟨0, 2, 3⟩, ⟨1000, 4, 5⟩]).map BasicBar.frequency
      = [1000] ∧ (1000 : Int) ≠ Frequency.SECOND := by
  exact ⟨by decide, by decide⟩

/-- C3 amended: every bar produced by `addBarsFromFile` carries, in its
frequency field, the bucket size in milliseconds (`frequency * 1000`) for
bucketed frequencies, and the trade-tick marker for TRADE frequency. -/
theorem barFrequencyField (base f : Int) (ticks : List Tick) (b : BasicBar)
    (hb : b ∈ addBarsFromTicks base f ticks) :
    b.frequency = if f = Frequency.TRADE then f else f * 1000 := by
  by_cases hf : f = Frequency.TRADE
  · simp only [addBarsFromTicks, if_pos hf] at hb
    rcases List.mem_map.mp hb with ⟨t, _, rfl⟩
    simp [tradeBar, hf]
  · simp only [addBarsFromTicks, if_neg hf] at hb
    rw [if_neg hf]
    exact runTicks_frequency base (f * 1000) ticks none [] (by simp) b hb

/-- Witness for C3 amended: the bar emitted at SECOND frequency carries 1000,
which is `SECOND * 1000`. -/
theorem barFrequencyField_witness :
    (⟨0, 2, 2, 2, 2, 10000, none, 1000⟩ : BasicBar) ∈
      addBarsFromTicks 0 Frequency.SECOND [⟨0, 2, 3⟩, ⟨1000, 4, 5⟩] ∧
    (BasicBar.mk 0 2 2 2 2 10000 none 1000).frequency =
      if Frequency.SECOND = Frequency.TRADE then Frequency.SECOND
      else Frequency.SECOND * 1000 :=
  ⟨by decide, barFrequencyField 0 Frequency.SECOND [⟨0, 2, 3⟩, ⟨1000, 4, 5⟩]
    ⟨0, 2, 2, 2, 2, 10000, none, 1000⟩ (by decide)⟩

/-- C5: at TRADE frequency the aggregation emits exactly one bar per tick, in
order, with all four prices equal to the tick's bid, volume 10000, no
adjusted close, and timestamp equal to the base date plus the tick's
millisecond offset. -/
theorem tradeFrequencyBars (base : Int) (ticks : List Tick) :
    (addBarsFromTicks base Frequency.TRADE ticks).length = ticks.length ∧
    ∀ i : Nat, (addBarsFromTicks base Frequency.TRADE ticks)[i]? =
      (ticks[i]?).map (fun t =>
        { dateTime := base + t.time, open_ := t.bid, high := t.bid, low := t.bid,
          close := t.bid, volume := 10000, adjClose := none,
          frequency := Frequency.TRADE }) := by
  have hmap : addBarsFromTicks base Frequency.TRADE ticks =
      ticks.map (tradeBar base Frequency.TRADE) := by
    simp [addBarsFromTicks]
  constructor
  · simp [hmap]
  · intro i
    rw [hmap, List.getElem?_map]
    cases ticks[i]? with
    | none => rfl
    | some t => simp [tradeBar]

/-- C9: the produced bar sequence does not depend on ask prices — two tick
sequences agreeing on every tick's `time` and `bid` aggregate identically at
every frequency. -/
theorem askNoninterference (base f : Int) (ticks1 ticks2 : List Tick)
    (hsame : ticks1.map (fun t => (t.time, t.bid)) =
      ticks2.map (fun t => (t.time, t.bid))) :
    addBarsFromTicks base f ticks1 = addBarsFromTicks base f ticks2 := by
  by_cases hf : f = Frequency.TRADE
  · simp only [addBarsFromTicks, if_pos hf]
    exact tradeBars_congr base f ticks1 ticks2 hsame
  · simp only [addBarsFromTicks, if_neg hf]
    exact runTicks_congr base (f * 1000) ticks1 ticks2 none [] hsame

/-- C7: in bucketed aggregation the first emitted bar opens at the very first
tick's bid; every later bar opens at the previous bar's close (the chained
carry-over); and opening a bucket initializes open, high, low and close (the
running `curr`) all to the carried-over opening price, before the current
tick is folded in. -/
theorem openPriceChaining (base f : Int) (hnt : f ≠ Frequency.TRADE)
    (ticks : List Tick) :
    List.Chain' (fun b b' => b'.open_ = b.close) (addBarsFromTicks base f ticks) ∧
    (∀ t0 rest, ticks = t0 :: rest →
      ∀ b0, (addBarsFromTicks base f ticks).head? = some b0 → b0.open_ = t0.bid) ∧
    (∀ (t : Tick) (o : ℚ),
      (openAcc base (f * 1000) t o).open_ = o ∧
      (openAcc base (f * 1000) t o).high = o ∧
      (openAcc base (f * 1000) t o).low = o ∧
      (openAcc base (f * 1000) t o).curr = o) := by
  have hmap : ∀ ts : List Tick, addBarsFromTicks base f ts =
      runTicks base (f * 1000) none [] ts := fun ts => by
    simp [addBarsFromTicks, if_neg hnt]
  have main : ∀ (t0 : Tick) (rest : List Tick),
      List.Chain' (fun b b' => b'.open_ = b.close)
        (addBarsFromTicks base f (t0 :: rest)) ∧
      (∀ b0, (addBarsFromTicks base f (t0 :: rest)).head? = some b0 →
        b0.open_ = t0.bid) := by
    intro t0 rest
    rw [hmap, runTicks_cons]
    simp only [processTick]
    exact runTicks_chain_inv base (f * 1000) t0.bid rest _ _ []
      List.chain'_nil (by intro b0 h; cases h) (fun _ => rfl)
      (by intro bl h; cases h)
  refine ⟨?_, ?_, fun t o => ⟨rfl, rfl, rfl, rfl⟩⟩
  · cases ticks with
    | nil =>
      rw [hmap, runTicks_nil]
      exact List.chain'_nil
    | cons t0 rest => exact (main t0 rest).1
  · rintro t0 rest rfl
    exact (main t0 rest).2

/-- Witness for C7: three ticks in three consecutive one-second buckets emit
two chained bars whose first open equals the first tick's bid. -/
theorem openPriceChaining_witness :
    Frequency.SECOND ≠ Frequency.TRADE ∧
    List.Chain' (fun b b' => b'.open_ = b.close)
      (addBarsFromTicks 0 Frequency.SECOND [⟨0, 2, 3⟩, ⟨1000, 4, 5⟩, ⟨2000, 6, 7⟩]) ∧
    (∀ b0, (addBarsFromTicks 0 Frequency.SECOND
        [⟨0, 2, 3⟩, ⟨1000, 4, 5⟩, ⟨2000, 6, 7⟩]).head? = some b0 →
      b0.open_ = (Tick.mk 0 2 3).bid) :=
  ⟨by decide,
    (openPriceChaining 0 Frequency.SECOND (by decide)
      [⟨0, 2, 3⟩, ⟨1000, 4, 5⟩, ⟨2000, 6, 7⟩]).1,
    fun b0 hb0 => (openPriceChaining 0 Frequency.SECOND (by decide)
      [⟨0, 2, 3⟩, ⟨1000, 4, 5⟩, ⟨2000, 6, 7⟩]).2.1 ⟨0, 2, 3⟩
      [⟨1000, 4, 5⟩, ⟨2000, 6, 7⟩] rfl b0 hb0⟩

/-- Witness for C9: changing only the ask prices of the ticks leaves the
SECOND-frequency output unchanged. -/
theorem askNoninterference_witness :
    ([⟨0, 2, 3⟩, ⟨1000, 4, 5⟩] : List Tick).map (fun t => (t.time, t.bid)) =
      ([⟨0, 2, 77⟩, ⟨1000, 4, 99⟩] : List Tick).map (fun t => (t.time, t.bid)) ∧
    addBarsFromTicks 0 Frequency.SECOND [⟨0, 2, 3⟩, ⟨1000, 4, 5⟩] =
      addBarsFromTicks 0 Frequency.SECOND [⟨0, 2, 77⟩, ⟨1000, 4, 99⟩] :=
  ⟨by decide, askNoninterference 0 Frequency.SECOND [⟨0, 2, 3⟩, ⟨1000, 4, 5⟩]
    [⟨0, 2, 77⟩, ⟨1000, 4, 99⟩] (by decide)⟩

/-- C8: for ticks with non-decreasing time offsets at any supported
frequency, every produced bar has its open and close within [low, high], bar
timestamps are non-decreasing across the sequence, and for bucketed
(non-TRADE) frequencies they are strictly increasing — at most one bar per
bucket. -/
theorem barOrderingInvariants (base f : Int) (hf : f ∈ validFrequencies)
    (ticks : List Tick)
    (hsorted : List.Pairwise (fun a b : Tick => a.time ≤ b.time) ticks) :
    (∀ b ∈ addBarsFromTicks base f ticks,
      b.low ≤ b.open_ ∧ b.open_ ≤ b.high ∧ b.low ≤ b.close ∧ b.close ≤ b.high) ∧
    List.Pairwise (fun b b' : BasicBar => b.dateTime ≤ b'.dateTime)
      (addBarsFromTicks base f ticks) ∧
    (f ≠ Frequency.TRADE →
      List.Pairwise (fun b b' : BasicBar => b.dateTime < b'.dateTime)
        (addBarsFromTicks base f ticks)) := by
  by_cases hnt : f = Frequency.TRADE
  · have hmap : addBarsFromTicks base f ticks = ticks.map (tradeBar base f) := by
      simp [addBarsFromTicks, if_pos hnt]
    refine ⟨?_, ?_, fun h => absurd hnt h⟩
    · intro b hb
      rw [hmap] at hb
      rcases List.mem_map.mp hb with ⟨t, _, rfl⟩
      exact ⟨le_refl _, le_refl _, le_refl _, le_refl _⟩
    · rw [hmap, List.pairwise_map]
      exact hsorted.imp (fun h =>
        show base + _ ≤ base + _ from add_le_add_left h base)
  · have hpos : 0 < f := by
      have hcases : f = Frequency.TRADE ∨ f = 1 ∨ f = 60 ∨ f = 300 ∨ f = 900 ∨
          f = 1800 ∨ f = 3600 ∨ f = 14400 ∨ f = 86400 := by
        simpa [validFrequencies, Frequency.TRADE, Frequency.SECOND,
          Frequency.MINUTE, Frequency.FIVE_MINUTES, Frequency.FIFTEEN_MINUTES,
          Frequency.THIRTY_MINUTES, Frequency.HOUR, Frequency.FOUR_HOURS,
          Frequency.DAY] using hf
      rcases hcases with h | h | h | h | h | h | h | h | h
      · exact absurd h hnt
      all_goals omega
    have hw : 0 < f * 1000 := by
      have : (0 : Int) < 1000 := by norm_num
      exact mul_pos hpos this
    have hmap : addBarsFromTicks base f ticks =
        runTicks base (f * 1000) none [] ticks := by
      simp [addBarsFromTicks, if_neg hnt]
    cases ticks with
    | nil =>
      refine ⟨by simp [hmap, runTicks_nil], by simp [hmap, runTicks_nil],
        fun _ => by simp [hmap, runTicks_nil]⟩
    | cons t0 rest =>
      obtain ⟨hhead, htail⟩ := List.pairwise_cons.mp hsorted
      have hrun := runTicks_ordered base (f * 1000) hw rest
        (Int.fdiv t0.time (f * 1000))
        (updAcc (openAcc base (f * 1000) t0 t0.bid) t0) []
        (fun t' ht' => fdiv_le_fdiv hw (hhead t' ht')) htail
        (accOK_updAcc t0 (accOK_openAcc base (f * 1000) t0 t0.bid))
        (by rw [updAcc_dateTime, openAcc_dateTime])
        (by simp) (by simp) List.Pairwise.nil
      rw [hmap, runTicks_cons]
      simp only [processTick]
      exact ⟨fun b hb => hrun.1 b hb, hrun.2.imp (fun h => le_of_lt h),
        fun _ => hrun.2⟩

/-- Witness for C8: the bars of a sorted two-bucket input satisfy the price
and timestamp ordering invariants. -/
theorem barOrderingInvariants_witness :
    Frequency.SECOND ∈ validFrequencies ∧
    List.Pairwise (fun a b : Tick => a.time ≤ b.time)
      [⟨0, 2, 3⟩, ⟨1000, 4, 5⟩] ∧
    List.Pairwise (fun b b' : BasicBar => b.dateTime ≤ b'.dateTime)
      (addBarsFromTicks 0 Frequency.SECOND [⟨0, 2, 3⟩, ⟨1000, 4, 5⟩]) :=
  ⟨by decide, by decide,
    (barOrderingInvariants 0 Frequency.SECOND (by decide)
      [⟨0, 2, 3⟩, ⟨1000, 4, 5⟩] (by decide)).2.1⟩

/-- C10: `Feed.barsHaveAdjClose` answers `True` even though every bar built by
`addBarsFromFile`, at every frequency, has its adjusted close set to `None`. -/
theorem adjCloseMismatch :
    barsHaveAdjClose = true ∧
    ∀ (base f : Int) (ticks : List Tick) (b : BasicBar),
      b ∈ addBarsFromTicks base f ticks → b.adjClose = none := by
  refine ⟨rfl, ?_⟩
  intro base f ticks b hb
  by_cases hf : f = Frequency.TRADE
  · simp only [addBarsFromTicks, if_pos hf] at hb
    rcases List.mem_map.mp hb with ⟨t, _, rfl⟩
    rfl
  · simp only [addBarsFromTicks, if_neg hf] at hb
    exact runTicks_adjClose base (f * 1000) ticks none [] (by simp) (by simp) b hb

/-- Witness for C10: the bar emitted at SECOND frequency for a concrete
two-tick input has no adjusted close, while `barsHaveAdjClose` is `true`. -/
theorem adjCloseMismatch_witness :
    (⟨0, 2, 2, 2, 2, 10000, none, 1000⟩ : BasicBar) ∈
      addBarsFromTicks 0 Frequency.SECOND [⟨0, 2, 3⟩, ⟨1000, 4, 5⟩] ∧
    (BasicBar.mk 0 2 2 2 2 10000 none 1000).adjClose = none :=
  ⟨by decide, adjCloseMismatch.2 0 Frequency.SECOND [⟨0, 2, 3⟩, ⟨1000, 4, 5⟩]
    ⟨0, 2, 2, 2, 2, 10000, none, 1000⟩ (by decide)⟩

end Dukascopy
